import Mathlib

/-!
Verification of the quiz-bot (`app.py`): a shallow embedding of the
per-user quiz state machine, the question loader and the update
dispatcher, with theorems about the properties the design document
states.

Modelling conventions:
* The global `user_states` dict is a function `Int → Option Session`
  (`Registry`); `chat_id not in user_states` is `reg chat_id = none`,
  assignment is `setSession`, `del` is `delSession`.
* Every outgoing `send_message` call site is one constructor of `Msg`;
  `render` gives the exact text the Python code would send.
* Network effects (the HTTP POST inside `send_message`, the
  `answerCallbackQuery` acknowledgement, `getUpdates`) have no local
  state effect in the source: errors there are logged and swallowed,
  so they are not part of the state model.
* Fallible operations return `Option`: `none` is an uncaught Python
  exception (`KeyError` on a missing dict key, `IndexError` on a
  list index out of range), which would crash the process.
* `get_questions` reads `questions.json`; the outcome of that external
  read is the explicit parameter `LoadOutcome`.
-/

namespace QuizBot

/-- One record of `questions.json`: the mapping with keys
`question`, `options`, `answer` that `ask_question` and
`handle_answer` read. -/
structure Question where
  question : String
  options : List String
  answer : String
deriving Repr, DecidableEq

/-- One value of the `user_states` dict: the dict
`{'score': ..., 'current_question': ..., 'questions': ...}`
created by `start_quiz`. -/
structure Session where
  score : Nat
  current_question : Nat
  questions : List Question
deriving Repr, DecidableEq

/-- The `user_states` dict, keyed by `chat_id`. -/
def Registry : Type := Int → Option Session

/-- The initial empty `user_states = {}`. -/
def emptyRegistry : Registry := fun _ => none

/-- `user_states[chat_id] = s`. -/
def setSession (reg : Registry) (chat_id : Int) (s : Session) : Registry :=
  fun c => if c = chat_id then some s else reg c

/-- `del user_states[chat_id]`. -/
def delSession (reg : Registry) (chat_id : Int) : Registry :=
  fun c => if c = chat_id then none else reg c

/-- One `send_message` call, tagged by call site.  Each constructor
holds exactly the data interpolated into the corresponding Python
f-string (see `render`); `question` additionally carries the
`options` list that becomes the inline keyboard. -/
inductive Msg where
  /-- Reply to `/start`. -/
  | greeting (chat_id : Int)
  /-- `start_quiz`'s "Игра недоступна" message. -/
  | unavailable (chat_id : Int)
  /-- `ask_question`'s question text with the options keyboard. -/
  | question (chat_id : Int) (text : String) (options : List String)
  /-- `handle_answer`'s "Правильно!" message. -/
  | correct (chat_id : Int)
  /-- `handle_answer`'s "Неправильно!" message revealing the answer. -/
  | incorrect (chat_id : Int) (correct_answer : String)
  /-- `ask_question`'s end-of-game summary. -/
  | summary (chat_id : Int) (score : Nat) (total : Nat)
  /-- `handle_answer`'s "Игра окончена" prompt for a user with no session. -/
  | gameOver (chat_id : Int)
deriving Repr, DecidableEq

/-- The exact text each `Msg` stands for in the source. -/
def render : Msg → String
  | .greeting _ => "Привет! ✋\nОтправь /quiz ⬇️, чтобы начать викторину!"
  | .unavailable _ => "Игра недоступна. Пожалуйста, попробуйте позже."
  | .question _ text _ => text
  | .correct _ => "Правильно! 🎉 🎉 🎉"
  | .incorrect _ a => "Неправильно! 🙁\nПравильный ответ: " ++ a
  | .summary _ score total =>
      "Игра окончена! 🙃\nВы ответили правильно на " ++ toString score ++
        " из " ++ toString total ++ " вопросов"
  | .gameOver _ => "Игра окончена.\nНапишите /quiz, чтобы начать заново 😃🎮."

/-- The chat the message goes to. -/
def Msg.chat : Msg → Int
  | .greeting c => c
  | .unavailable c => c
  | .question c _ _ => c
  | .correct c => c
  | .incorrect c _ => c
  | .summary c _ _ => c
  | .gameOver c => c

/-- Is this message the end-of-game summary? -/
def Msg.isSummary : Msg → Bool
  | .summary _ _ _ => true
  | _ => false

/-- The outcome of `open('questions.json')` + `json.load`:
the file may be absent (`FileNotFoundError`), unparsable
(`json.JSONDecodeError`), or parse to a list of question records. -/
inductive LoadOutcome where
  | fileMissing
  | malformed
  | parsed (questions : List Question)
deriving Repr, DecidableEq

/-- `get_questions()`: returns the parsed list, or `None` after
catching `FileNotFoundError` / `json.JSONDecodeError` and logging. -/
def get_questions : LoadOutcome → Option (List Question)
  | .fileMissing => none
  | .malformed => none
  | .parsed qs => some qs

/-- `ask_question(chat_id)`: reads `user_states[chat_id]` (a `KeyError`
— `none` — if absent); if the index has reached the end, sends the
summary and deletes the session, otherwise sends the current question
with its options keyboard. -/
def ask_question (chat_id : Int) (reg : Registry) :
    Option (Registry × List Msg) :=
  match reg chat_id with
  | none => none
  | some state =>
    if state.questions.length ≤ state.current_question then
      some (delSession reg chat_id,
        [Msg.summary chat_id state.score state.questions.length])
    else
      match state.questions[state.current_question]? with
      | none => none
      | some question_data =>
        some (reg,
          [Msg.question chat_id question_data.question question_data.options])

/-- `start_quiz(chat_id)`: loads the questions; `if questions:` is
Python truthiness, false both for `None` and for the empty list, in
which case the "unavailable" message is sent; otherwise a fresh
session (score 0, index 0) is stored and `ask_question` runs. -/
def start_quiz (chat_id : Int) (load : LoadOutcome) (reg : Registry) :
    Option (Registry × List Msg) :=
  match get_questions load with
  | some questions =>
    if questions.isEmpty then
      some (reg, [Msg.unavailable chat_id])
    else
      ask_question chat_id (setSession reg chat_id ⟨0, 0, questions⟩)
  | none => some (reg, [Msg.unavailable chat_id])

/-- `handle_answer(chat_id, answer, callback_query_id)`: the
`answerCallbackQuery` POST has no local effect.  If the user has no
session, send the game-over prompt and return.  Otherwise index the
current question (`IndexError` — `none` — if out of range), compare
the answer string to `question_data['answer']`, update the score,
send feedback, advance `current_question` and run `ask_question`. -/
def handle_answer (chat_id : Int) (answer : String) (reg : Registry) :
    Option (Registry × List Msg) :=
  match reg chat_id with
  | none => some (reg, [Msg.gameOver chat_id])
  | some state =>
    match state.questions[state.current_question]? with
    | none => none
    | some question_data =>
      let correct_answer := question_data.answer
      let fed : Session × Msg :=
        if answer = correct_answer then
          ({ state with score := state.score + 1 }, Msg.correct chat_id)
        else
          (state, Msg.incorrect chat_id correct_answer)
      let state2 : Session :=
        { fed.1 with current_question := fed.1.current_question + 1 }
      match ask_question chat_id (setSession reg chat_id state2) with
      | none => none
      | some (reg3, msgs) => some (reg3, fed.2 :: msgs)

/-- The `"message"` part of an update: `chat.id`, `date`, and the
optional `"text"` key. -/
structure MessageData where
  chat_id : Int
  date : Int
  text : Option String
deriving Repr, DecidableEq

/-- The `"callback_query"` part of an update: the button payload
`data`, the sender `from.id`, and the acknowledgement id. -/
structure CallbackQuery where
  data : String
  from_id : Int
  id : String
deriving Repr, DecidableEq

/-- One element of `getUpdates`' `"result"` list. -/
structure Update where
  update_id : Int
  message : Option MessageData
  callback_query : Option CallbackQuery
deriving Repr, DecidableEq

/-- The text-command dispatch inside `main`'s message branch:
`/start` sends the greeting, `/quiz` starts a quiz, anything else is
ignored. -/
def handle_text (chat_id : Int) (load : LoadOutcome) (text : String)
    (reg : Registry) : Option (Registry × List Msg) :=
  if text = "/start" then
    some (reg, [Msg.greeting chat_id])
  else if text = "/quiz" then
    start_quiz chat_id load reg
  else
    some (reg, [])

/-- The `if "callback_query" in update:` block at the end of `main`'s
per-update body, appending its output after `out`. -/
def handle_callback_part (u : Update) (reg : Registry) (out : List Msg) :
    Option (Registry × List Msg) :=
  match u.callback_query with
  | none => some (reg, out)
  | some cb =>
    match handle_answer cb.from_id cb.data reg with
    | none => none
    | some (reg2, out2) => some (reg2, out ++ out2)

/-- The body of `main`'s `for update in updates` loop after the
cursor assignment, at time `now` (`time.time()`): the message branch
with its staleness filter — `continue` on a message older than
`now - 10` skips the whole update, callback included — then the
callback branch. -/
def handle_update (now : Int) (load : LoadOutcome) (u : Update)
    (reg : Registry) : Option (Registry × List Msg) :=
  match u.message with
  | some message_data =>
    if message_data.date < now - 10 then
      some (reg, [])
    else
      let step1 : Option (Registry × List Msg) :=
        match message_data.text with
        | some text => handle_text message_data.chat_id load text reg
        | none => some (reg, [])
      match step1 with
      | none => none
      | some (reg1, out1) => handle_callback_part u reg1 out1
  | none => handle_callback_part u reg []

/-- One pass of `main`'s `for update in updates.get("result", [])`
loop over a fetched batch.  Each iteration first sets
`offset = update["update_id"] + 1`, then handles the update.  Besides
the final registry, cursor and sent messages, the run returns the
trace of values assigned to `offset`, in assignment order. -/
def run_batch (now : Int) (load : LoadOutcome) :
    List Update → Registry → Option Int →
    Option (Registry × Option Int × List Msg × List Int)
  | [], reg, offset => some (reg, offset, [], [])
  | u :: rest, reg, _ =>
    let offset1 : Int := u.update_id + 1
    match handle_update now load u reg with
    | none => none
    | some (reg1, out1) =>
      match run_batch now load rest reg1 (some offset1) with
      | none => none
      | some (reg2, offset2, out2, curs) =>
        some (reg2, offset2, out1 ++ out2, offset1 :: curs)

/-- A quiz episode after the start: the user answers with the strings
`answers`, one `handle_answer` event per answer, messages
concatenated in order. -/
def run_answers (c : Int) : List String → Registry → Option (Registry × List Msg)
  | [], reg => some (reg, [])
  | a :: rest, reg =>
    match handle_answer c a reg with
    | none => none
    | some (reg1, out1) =>
      match run_answers c rest reg1 with
      | none => none
      | some (reg2, out2) => some (reg2, out1 ++ out2)

/-- The registries that can arise at a loop boundary of `main`:
`user_states` starts empty, and each handled update rewrites it
through `handle_update` (which subsumes `start_quiz` for `/quiz`
messages and `handle_answer` for callbacks). -/
inductive Reachable : Registry → Prop
  | empty : Reachable emptyRegistry
  | step {now : Int} {load : LoadOutcome} {u : Update} {reg reg' : Registry}
      {out : List Msg} : Reachable reg →
      handle_update now load u reg = some (reg', out) → Reachable reg'

/-- Every stored session still has a current question in range. -/
def Inv (reg : Registry) : Prop :=
  ∀ c s, reg c = some s → s.current_question < s.questions.length

/-- A question fixed for concrete witnesses. -/
def qA : Question := ⟨"2+2?", ["3", "4"], "4"⟩

/-- A second question fixed for concrete witnesses. -/
def qB : Question := ⟨"capital?", ["Paris", "Rome"], "Paris"⟩

/-- A concrete registry for witnesses: user 5 is one `/quiz` into a
two-question game. -/
def regW : Registry := setSession emptyRegistry 5 ⟨0, 0, [qA, qB]⟩

/-! ### Behaviour of the individual operations -/

@[simp] theorem setSession_same (reg : Registry) (c : Int) (s : Session) :
    setSession reg c s c = some s := by
  simp [setSession]

@[simp] theorem delSession_same (reg : Registry) (c : Int) :
    delSession reg c c = none := by
  simp [delSession]

theorem setSession_other (reg : Registry) (c c' : Int) (s : Session)
    (h : c' ≠ c) : setSession reg c s c' = reg c' := by
  simp [setSession, h]

theorem delSession_other (reg : Registry) (c c' : Int) (h : c' ≠ c) :
    delSession reg c c' = reg c' := by
  simp [delSession, h]

theorem delSession_setSession (reg : Registry) (c : Int) (s : Session) :
    delSession (setSession reg c s) c = delSession reg c := by
  funext x
  by_cases h : x = c <;> simp [delSession, setSession, h]

/-- `start_quiz` on a successfully parsed, non-empty question list:
a fresh session is stored (overwriting any previous one) and
question 0 is delivered. -/
theorem start_quiz_parsed (c : Int) (q0 : Question) (qs : List Question)
    (reg : Registry) :
    start_quiz c (.parsed (q0 :: qs)) reg =
      some (setSession reg c ⟨0, 0, q0 :: qs⟩,
        [Msg.question c q0.question q0.options]) := by
  simp [start_quiz, get_questions, ask_question]

/-- `handle_answer` when the session continues: feedback then the
next question, session advanced by one with the score updated. -/
theorem handle_answer_continue (reg : Registry) (c : Int) (a : String)
    (s : Session) (qd qd' : Question)
    (hreg : reg c = some s)
    (hq : s.questions[s.current_question]? = some qd)
    (hq' : s.questions[s.current_question + 1]? = some qd') :
    handle_answer c a reg =
      some (setSession reg c
          ⟨(if a = qd.answer then s.score + 1 else s.score),
            s.current_question + 1, s.questions⟩,
        [(if a = qd.answer then Msg.correct c else Msg.incorrect c qd.answer),
          Msg.question c qd'.question qd'.options]) := by
  have hlt' : s.current_question + 1 < s.questions.length := by
    by_contra hge
    rw [List.getElem?_eq_none (Nat.le_of_not_lt hge)] at hq'
    exact Option.noConfusion hq'
  by_cases ha : a = qd.answer <;>
    simp [handle_answer, hreg, hq, ha, ask_question, Nat.not_le.mpr hlt', hq']

/-- `handle_answer` on the last question: feedback then the summary,
session deleted. -/
theorem handle_answer_finish (reg : Registry) (c : Int) (a : String)
    (s : Session) (qd : Question)
    (hreg : reg c = some s)
    (hq : s.questions[s.current_question]? = some qd)
    (hend : s.questions.length ≤ s.current_question + 1) :
    handle_answer c a reg =
      some (delSession reg c,
        [(if a = qd.answer then Msg.correct c else Msg.incorrect c qd.answer),
          Msg.summary c (if a = qd.answer then s.score + 1 else s.score)
            s.questions.length]) := by
  by_cases ha : a = qd.answer <;>
    simp [handle_answer, hreg, hq, ha, ask_question, hend, delSession_setSession]

/-! ### The registry invariant -/

theorem Inv_empty : Inv emptyRegistry := by
  intro c s h
  exact Option.noConfusion h

theorem Inv_setSession {reg : Registry} {c : Int} {s : Session}
    (hinv : Inv reg) (hs : s.current_question < s.questions.length) :
    Inv (setSession reg c s) := by
  intro c' s' h'
  by_cases hc : c' = c
  · subst hc
    rw [setSession_same] at h'
    cases h'
    exact hs
  · rw [setSession_other reg c c' s hc] at h'
    exact hinv c' s' h'

theorem Inv_delSession {reg : Registry} {c : Int} (hinv : Inv reg) :
    Inv (delSession reg c) := by
  intro c' s' h'
  by_cases hc : c' = c
  · subst hc
    rw [delSession_same] at h'
    exact Option.noConfusion h'
  · rw [delSession_other reg c c' hc] at h'
    exact hinv c' s' h'

/-- `start_quiz` always returns normally and preserves the invariant. -/
theorem start_quiz_some_inv {reg : Registry} (c : Int) (load : LoadOutcome)
    (hinv : Inv reg) :
    ∃ reg' out, start_quiz c load reg = some (reg', out) ∧ Inv reg' := by
  match load with
  | .fileMissing =>
    exact ⟨reg, [Msg.unavailable c], by simp [start_quiz, get_questions], hinv⟩
  | .malformed =>
    exact ⟨reg, [Msg.unavailable c], by simp [start_quiz, get_questions], hinv⟩
  | .parsed [] =>
    exact ⟨reg, [Msg.unavailable c], by simp [start_quiz, get_questions], hinv⟩
  | .parsed (q0 :: qs) =>
    refine ⟨setSession reg c ⟨0, 0, q0 :: qs⟩, _, start_quiz_parsed c q0 qs reg, ?_⟩
    exact Inv_setSession hinv (by simp)

/-- `handle_answer` returns normally from an invariant-respecting
registry and preserves the invariant. -/
theorem handle_answer_some_inv {reg : Registry} (c : Int) (a : String)
    (hinv : Inv reg) :
    ∃ reg' out, handle_answer c a reg = some (reg', out) ∧ Inv reg' := by
  cases hreg : reg c with
  | none => exact ⟨reg, [Msg.gameOver c], by simp [handle_answer, hreg], hinv⟩
  | some s =>
    have hlt : s.current_question < s.questions.length := hinv c s hreg
    obtain ⟨qd, hq⟩ : ∃ qd, s.questions[s.current_question]? = some qd :=
      ⟨_, List.getElem?_eq_getElem hlt⟩
    by_cases hlt2 : s.current_question + 1 < s.questions.length
    · obtain ⟨qd2, hq2⟩ :
          ∃ qd2, s.questions[s.current_question + 1]? = some qd2 :=
        ⟨_, List.getElem?_eq_getElem hlt2⟩
      refine ⟨_, _, handle_answer_continue reg c a s _ _ hreg hq hq2, ?_⟩
      exact Inv_setSession hinv hlt2
    · refine ⟨_, _,
        handle_answer_finish reg c a s _ hreg hq (Nat.le_of_not_lt hlt2), ?_⟩
      exact Inv_delSession hinv

/-- The text-command branch always returns normally and preserves the
invariant. -/
theorem handle_text_some_inv {reg : Registry} (c : Int) (load : LoadOutcome)
    (t : String) (hinv : Inv reg) :
    ∃ reg' out, handle_text c load t reg = some (reg', out) ∧ Inv reg' := by
  by_cases h1 : t = "/start"
  · exact ⟨reg, [Msg.greeting c], by simp [handle_text, h1], hinv⟩
  · by_cases h2 : t = "/quiz"
    · obtain ⟨reg', out, heq, hinv'⟩ := start_quiz_some_inv c load hinv
      exact ⟨reg', out, by simp [handle_text, h1, h2, heq], hinv'⟩
    · exact ⟨reg, [], by simp [handle_text, h1, h2], hinv⟩

/-- The callback branch always returns normally and preserves the
invariant. -/
theorem handle_callback_part_some_inv {reg : Registry} (u : Update)
    (out : List Msg) (hinv : Inv reg) :
    ∃ reg' out', handle_callback_part u reg out = some (reg', out') ∧
      Inv reg' := by
  cases hcb : u.callback_query with
  | none => exact ⟨reg, out, by simp [handle_callback_part, hcb], hinv⟩
  | some cb =>
    obtain ⟨reg', out2, heq, hinv'⟩ := handle_answer_some_inv cb.from_id cb.data hinv
    exact ⟨reg', out ++ out2, by simp [handle_callback_part, hcb, heq], hinv'⟩

/-- The per-update dispatcher body always returns normally from an
invariant-respecting registry and preserves the invariant. -/
theorem handle_update_some_inv {reg : Registry} (now : Int)
    (load : LoadOutcome) (u : Update) (hinv : Inv reg) :
    ∃ reg' out, handle_update now load u reg = some (reg', out) ∧
      Inv reg' := by
  cases hm : u.message with
  | none =>
    obtain ⟨reg', out', heq, hinv'⟩ := handle_callback_part_some_inv u [] hinv
    exact ⟨reg', out', by simp [handle_update, hm, heq], hinv'⟩
  | some m =>
    by_cases hstale : m.date < now - 10
    · exact ⟨reg, [], by simp [handle_update, hm, hstale], hinv⟩
    · cases ht : m.text with
      | none =>
        obtain ⟨reg', out', heq, hinv'⟩ := handle_callback_part_some_inv u [] hinv
        exact ⟨reg', out', by simp [handle_update, hm, hstale, ht, heq], hinv'⟩
      | some t =>
        obtain ⟨reg1, out1, heq1, hinv1⟩ := handle_text_some_inv m.chat_id load t hinv
        obtain ⟨reg', out', heq2, hinv'⟩ := handle_callback_part_some_inv u out1 hinv1
        exact ⟨reg', out',
          by simp [handle_update, hm, hstale, ht, heq1, heq2], hinv'⟩

/-- Every reachable registry satisfies the invariant. -/
theorem Reachable.inv {reg : Registry} (h : Reachable reg) : Inv reg := by
  induction h with
  | empty => exact Inv_empty
  | step hr heq ih =>
    rename_i now load u reg0 reg' out
    obtain ⟨reg2, out2, heq2, hinv2⟩ := handle_update_some_inv now load u ih
    rw [heq] at heq2
    cases heq2
    exact hinv2

theorem regW_step :
    handle_update 100 (.parsed [qA, qB])
      ⟨1, some ⟨5, 100, some "/quiz"⟩, none⟩ emptyRegistry =
      some (regW, [Msg.question 5 "2+2?" ["3", "4"]]) := by
  rfl

theorem regW_reachable : Reachable regW :=
  Reachable.step Reachable.empty regW_step

/-! ### Claim theorems -/

/-- C4: an answer event for a user with no session in the registry
sends only the "game over" restart prompt and changes nothing: the
registry (hence every existing session) is returned untouched. -/
theorem answer_without_session (c : Int) (a : String) (reg : Registry)
    (h : reg c = none) :
    handle_answer c a reg = some (reg, [Msg.gameOver c]) := by
  simp [handle_answer, h]

theorem answer_without_session_witness :
    handle_answer 1 "4" (setSession emptyRegistry 2 ⟨0, 0, [qA]⟩) =
      some (setSession emptyRegistry 2 ⟨0, 0, [qA]⟩, [Msg.gameOver 1]) :=
  answer_without_session 1 "4" (setSession emptyRegistry 2 ⟨0, 0, [qA]⟩) rfl

/-- C5: when the question resource is missing or malformed, the load
returns the error result `none`, `start_quiz` leaves the registry
unchanged (no session is created for the user), sends exactly the one
"unavailable" message, and returns normally instead of raising. -/
theorem load_failure_no_session (c : Int) (load : LoadOutcome) (reg : Registry)
    (h : load = .fileMissing ∨ load = .malformed) :
    get_questions load = none ∧
      start_quiz c load reg = some (reg, [Msg.unavailable c]) := by
  rcases h with rfl | rfl <;> simp [get_questions, start_quiz]

theorem load_failure_no_session_witness :
    get_questions .fileMissing = none ∧
      start_quiz 1 .fileMissing emptyRegistry =
        some (emptyRegistry, [Msg.unavailable 1]) :=
  load_failure_no_session 1 .fileMissing emptyRegistry (Or.inl rfl)

/-- C6: an update carrying a message whose timestamp is older than
`now - 10` is skipped entirely by the dispatcher body: no message is
sent and the registry is unchanged (the `continue` also skips any
callback part of the same update). -/
theorem stale_update_skipped (now : Int) (load : LoadOutcome) (u : Update)
    (reg : Registry) (m : MessageData) (hm : u.message = some m)
    (hstale : m.date < now - 10) :
    handle_update now load u reg = some (reg, []) := by
  simp [handle_update, hm, hstale]

theorem stale_update_skipped_witness :
    handle_update 100 (.parsed [qA])
      ⟨7, some ⟨5, 0, some "/quiz"⟩, some ⟨"4", 5, "cb1"⟩⟩ emptyRegistry =
      some (emptyRegistry, []) :=
  stale_update_skipped 100 (.parsed [qA])
    ⟨7, some ⟨5, 0, some "/quiz"⟩, some ⟨"4", 5, "cb1"⟩⟩ emptyRegistry
    ⟨5, 0, some "/quiz"⟩ rfl (by decide)

/-- C9: a start command for a user who already has a session
overwrites it with a fresh one — score 0, index 0 — and delivers
question 0; nothing in `start_quiz` restricts the transition to users
without a session, so the prior progress `s` is silently discarded. -/
theorem start_overwrites_session (c : Int) (q0 : Question)
    (qs : List Question) (reg : Registry) (s : Session)
    (h : reg c = some s) :
    start_quiz c (.parsed (q0 :: qs)) reg =
      some (setSession reg c ⟨0, 0, q0 :: qs⟩,
        [Msg.question c q0.question q0.options]) ∧
      setSession reg c ⟨0, 0, q0 :: qs⟩ c = some ⟨0, 0, q0 :: qs⟩ :=
  ⟨start_quiz_parsed c q0 qs reg, setSession_same reg c _⟩

theorem start_overwrites_session_witness :
    start_quiz 3 (.parsed [qB]) (setSession emptyRegistry 3 ⟨1, 1, [qA, qB]⟩) =
      some (setSession (setSession emptyRegistry 3 ⟨1, 1, [qA, qB]⟩) 3
          ⟨0, 0, [qB]⟩,
        [Msg.question 3 qB.question qB.options]) ∧
      setSession (setSession emptyRegistry 3 ⟨1, 1, [qA, qB]⟩) 3
          ⟨0, 0, [qB]⟩ 3 = some ⟨0, 0, [qB]⟩ :=
  start_overwrites_session 3 qB [] (setSession emptyRegistry 3 ⟨1, 1, [qA, qB]⟩)
    ⟨1, 1, [qA, qB]⟩ rfl

/-- C10: a question resource that parses to the empty list is not a
`LoadError` (`get_questions` returns `some []`), yet `start_quiz`
behaves exactly as on a load failure: Python's `if questions:` is
false for `[]`, so the "unavailable" message is sent and no session is
created. -/
theorem empty_question_list_unavailable (c : Int) (reg : Registry) :
    get_questions (.parsed []) = some [] ∧
      start_quiz c (.parsed []) reg = some (reg, [Msg.unavailable c]) := by
  simp [get_questions, start_quiz]

/-- What `start_quiz` can do to the registry: leave it alone, or
install a fresh session for the starting user. -/
theorem start_quiz_result (c : Int) (load : LoadOutcome) (reg reg' : Registry)
    (out : List Msg) (h : start_quiz c load reg = some (reg', out)) :
    reg' = reg ∨ ∃ q0 qs, reg' = setSession reg c ⟨0, 0, q0 :: qs⟩ := by
  match load with
  | .fileMissing =>
    simp only [start_quiz, get_questions, Option.some.injEq, Prod.mk.injEq] at h
    exact Or.inl h.1.symm
  | .malformed =>
    simp only [start_quiz, get_questions, Option.some.injEq, Prod.mk.injEq] at h
    exact Or.inl h.1.symm
  | .parsed [] =>
    simp only [start_quiz, get_questions, List.isEmpty_nil, if_true,
      Option.some.injEq, Prod.mk.injEq] at h
    exact Or.inl h.1.symm
  | .parsed (q0 :: qs) =>
    rw [start_quiz_parsed] at h
    simp only [Option.some.injEq, Prod.mk.injEq] at h
    exact Or.inr ⟨q0, qs, h.1.symm⟩

/-- How one answer event can change a given user's registry entry:
a session present before and after the event is either untouched (a
different user answered) or advanced by exactly one question. -/
theorem handle_answer_entry (c cop : Int) (a : String) (reg regA : Registry)
    (outA : List Msg) (s3 s4 : Session) (hinv : Inv reg)
    (h : handle_answer cop a reg = some (regA, outA))
    (h3 : reg c = some s3) (h4 : regA c = some s4) :
    s4 = s3 ∨ s4.current_question = s3.current_question + 1 := by
  cases hreg : reg cop with
  | none =>
    rw [answer_without_session cop a reg hreg] at h
    simp only [Option.some.injEq, Prod.mk.injEq] at h
    rw [← h.1, h3] at h4
    cases h4
    exact Or.inl rfl
  | some st =>
    have hlt : st.current_question < st.questions.length := hinv cop st hreg
    obtain ⟨qd, hq⟩ : ∃ qd, st.questions[st.current_question]? = some qd :=
      ⟨_, List.getElem?_eq_getElem hlt⟩
    by_cases hlt2 : st.current_question + 1 < st.questions.length
    · rw [handle_answer_continue reg cop a st _ _ hreg hq
        (List.getElem?_eq_getElem hlt2)] at h
      simp only [Option.some.injEq, Prod.mk.injEq] at h
      by_cases hc : c = cop
      · subst hc
        rw [h3] at hreg
        cases hreg
        rw [← h.1, setSession_same] at h4
        cases h4
        exact Or.inr rfl
      · rw [← h.1, setSession_other reg cop c _ hc] at h4
        rw [h3] at h4
        cases h4
        exact Or.inl rfl
    · rw [handle_answer_finish reg cop a st _ hreg hq
        (Nat.le_of_not_lt hlt2)] at h
      simp only [Option.some.injEq, Prod.mk.injEq] at h
      by_cases hc : c = cop
      · subst hc
        rw [← h.1, delSession_same] at h4
        exact Option.noConfusion h4
      · rw [← h.1, delSession_other reg cop c hc] at h4
        rw [h3] at h4
        cases h4
        exact Or.inl rfl

/-- C1: on an answer event for an in-progress session, the score
grows by exactly 1 when the answer string equals the current
question's `answer` field and is unchanged otherwise, and
`current_question` then grows by exactly 1: the advanced session is
stored back when questions remain, otherwise it is deleted and its
final score reported in the summary. -/
theorem answer_scoring (reg : Registry) (c : Int) (a : String)
    (s : Session) (qd : Question) (hreg : reg c = some s)
    (hq : s.questions[s.current_question]? = some qd) :
    (s.current_question + 1 < s.questions.length ∧
      ∃ qd', s.questions[s.current_question + 1]? = some qd' ∧
        handle_answer c a reg =
          some (setSession reg c
              ⟨(if a = qd.answer then s.score + 1 else s.score),
                s.current_question + 1, s.questions⟩,
            [(if a = qd.answer then Msg.correct c
              else Msg.incorrect c qd.answer),
              Msg.question c qd'.question qd'.options])) ∨
    (s.questions.length = s.current_question + 1 ∧
      handle_answer c a reg =
        some (delSession reg c,
          [(if a = qd.answer then Msg.correct c
            else Msg.incorrect c qd.answer),
            Msg.summary c (if a = qd.answer then s.score + 1 else s.score)
              s.questions.length])) := by
  have hlt : s.current_question < s.questions.length := by
    rcases List.getElem?_eq_some.1 hq with ⟨hb, _⟩
    exact hb
  by_cases hlt2 : s.current_question + 1 < s.questions.length
  · exact Or.inl ⟨hlt2, _, List.getElem?_eq_getElem hlt2,
      handle_answer_continue reg c a s qd _ hreg hq
        (List.getElem?_eq_getElem hlt2)⟩
  · have hlen : s.questions.length = s.current_question + 1 := by omega
    exact Or.inr ⟨hlen,
      handle_answer_finish reg c a s qd hreg hq (Nat.le_of_not_lt hlt2)⟩

theorem answer_scoring_witness :
    ((0 : Nat) + 1 < ([qA, qB] : List Question).length ∧
      ∃ qd', ([qA, qB] : List Question)[0 + 1]? = some qd' ∧
        handle_answer 5 "3" regW =
          some (setSession regW 5
              ⟨(if "3" = qA.answer then 0 + 1 else 0), 0 + 1, [qA, qB]⟩,
            [(if "3" = qA.answer then Msg.correct 5
              else Msg.incorrect 5 qA.answer),
              Msg.question 5 qd'.question qd'.options])) ∨
    (([qA, qB] : List Question).length = 0 + 1 ∧
      handle_answer 5 "3" regW =
        some (delSession regW 5,
          [(if "3" = qA.answer then Msg.correct 5
            else Msg.incorrect 5 qA.answer),
            Msg.summary 5 (if "3" = qA.answer then 0 + 1 else 0)
              ([qA, qB] : List Question).length])) :=
  answer_scoring regW 5 "3" ⟨0, 0, [qA, qB]⟩ qA rfl rfl

/-- C2: while a session exists its `current_question` never exceeds
its question count; a start operation either leaves a user's entry
untouched or installs a session whose `current_question` is 0; and an
answer operation never decreases the `current_question` of a session
that exists before and after it.  Together these give the claim:
over any sequence of start and answer operations the index starts at
0, never decreases while the session exists, and never exceeds the
question count. -/
theorem current_question_monotone (reg regS regA : Registry) (c cop : Int)
    (s s2 s3 s4 : Session) (load : LoadOutcome) (a : String)
    (outS outA : List Msg) (h : Reachable reg) :
    (reg c = some s → s.current_question ≤ s.questions.length) ∧
    (start_quiz cop load reg = some (regS, outS) → regS c = some s2 →
      regS c = reg c ∨ (c = cop ∧ s2.current_question = 0)) ∧
    (handle_answer cop a reg = some (regA, outA) → reg c = some s3 →
      regA c = some s4 → s3.current_question ≤ s4.current_question) := by
  refine ⟨fun hc => Nat.le_of_lt (h.inv c s hc), ?_, ?_⟩
  · intro hstart hc
    rcases start_quiz_result cop load reg regS outS hstart with rfl | ⟨q0, qs, rfl⟩
    · exact Or.inl rfl
    · by_cases hcc : c = cop
      · subst hcc
        rw [setSession_same] at hc
        cases hc
        exact Or.inr ⟨rfl, rfl⟩
      · exact Or.inl (setSession_other reg cop c _ hcc)
  · intro hans h3 h4
    rcases handle_answer_entry c cop a reg regA outA s3 s4 h.inv hans h3 h4 with
      rfl | heq
    · exact Nat.le_refl _
    · rw [heq]
      exact Nat.le_succ _

theorem current_question_monotone_witness :
    (regW 5 = some ⟨0, 0, [qA, qB]⟩ →
      (Session.mk 0 0 [qA, qB]).current_question ≤
        (Session.mk 0 0 [qA, qB]).questions.length) ∧
    (start_quiz 5 (.parsed [qB]) regW =
        some (setSession regW 5 ⟨0, 0, [qB]⟩,
          [Msg.question 5 "capital?" ["Paris", "Rome"]]) →
      setSession regW 5 ⟨0, 0, [qB]⟩ 5 = some ⟨0, 0, [qB]⟩ →
      setSession regW 5 ⟨0, 0, [qB]⟩ 5 = regW 5 ∨
        ((5 : Int) = 5 ∧ (Session.mk 0 0 [qB]).current_question = 0)) ∧
    (handle_answer 5 "4" regW =
        some (setSession regW 5 ⟨1, 1, [qA, qB]⟩,
          [Msg.correct 5, Msg.question 5 "capital?" ["Paris", "Rome"]]) →
      regW 5 = some ⟨0, 0, [qA, qB]⟩ →
      setSession regW 5 ⟨1, 1, [qA, qB]⟩ 5 = some ⟨1, 1, [qA, qB]⟩ →
      (Session.mk 0 0 [qA, qB]).current_question ≤
        (Session.mk 1 1 [qA, qB]).current_question) :=
  current_question_monotone regW (setSession regW 5 ⟨0, 0, [qB]⟩)
    (setSession regW 5 ⟨1, 1, [qA, qB]⟩) 5 5 ⟨0, 0, [qA, qB]⟩ ⟨0, 0, [qB]⟩
    ⟨0, 0, [qA, qB]⟩ ⟨1, 1, [qA, qB]⟩ (.parsed [qB]) "4"
    [Msg.question 5 "capital?" ["Paris", "Rome"]]
    [Msg.correct 5, Msg.question 5 "capital?" ["Paris", "Rome"]]
    regW_reachable

/-- C8: in every reachable registry — in particular whenever an
answer event arrives — each stored session's `current_question` is
strictly below its question count, so `handle_answer`'s indexing of
the question list is in bounds and the handler returns normally
instead of raising. -/
theorem answer_indexing_safe (reg : Registry) (c : Int) (a : String)
    (s : Session) (h : Reachable reg) :
    (reg c = some s → s.current_question < s.questions.length) ∧
    ∃ reg' out, handle_answer c a reg = some (reg', out) := by
  refine ⟨fun hc => h.inv c s hc, ?_⟩
  obtain ⟨reg', out, heq, _⟩ := handle_answer_some_inv c a h.inv
  exact ⟨reg', out, heq⟩

theorem answer_indexing_safe_witness :
    (regW 5 = some ⟨0, 0, [qA, qB]⟩ →
      (Session.mk 0 0 [qA, qB]).current_question <
        (Session.mk 0 0 [qA, qB]).questions.length) ∧
    ∃ reg' out, handle_answer 5 "4" regW = some (reg', out) :=
  answer_indexing_safe regW 5 "4" ⟨0, 0, [qA, qB]⟩ regW_reachable

@[simp] theorem isSummary_correct (c : Int) :
    (Msg.correct c).isSummary = false := rfl

@[simp] theorem isSummary_incorrect (c : Int) (a : String) :
    (Msg.incorrect c a).isSummary = false := rfl

@[simp] theorem isSummary_question (c : Int) (t : String) (o : List String) :
    (Msg.question c t o).isSummary = false := rfl

@[simp] theorem isSummary_summary (c : Int) (n m : Nat) :
    (Msg.summary c n m).isSummary = true := rfl

/-- Running exactly the remaining number of answers through
`handle_answer` deletes the session and produces exactly one summary,
whose reported score is bounded by the starting score plus the number
of answers. -/
theorem run_answers_completes (c : Int) :
    ∀ (answers : List String) (reg : Registry) (s : Session),
      reg c = some s →
      s.current_question + answers.length = s.questions.length →
      s.current_question < s.questions.length →
      ∃ reg2 out score,
        run_answers c answers reg = some (reg2, out) ∧
        reg2 c = none ∧
        out.filter Msg.isSummary = [Msg.summary c score s.questions.length] ∧
        score ≤ s.score + answers.length := by
  intro answers
  induction answers with
  | nil =>
    intro reg s hreg hlen hlt
    simp only [List.length_nil] at hlen
    omega
  | cons a rest ih =>
    intro reg s hreg hlen hlt
    obtain ⟨qd, hq⟩ : ∃ qd, s.questions[s.current_question]? = some qd :=
      ⟨_, List.getElem?_eq_getElem hlt⟩
    by_cases hlt2 : s.current_question + 1 < s.questions.length
    · obtain ⟨qd2, hq2⟩ :
          ∃ qd2, s.questions[s.current_question + 1]? = some qd2 :=
        ⟨_, List.getElem?_eq_getElem hlt2⟩
      have hstep := handle_answer_continue reg c a s qd qd2 hreg hq hq2
      obtain ⟨reg2, out2, score, hrun, hnone, hfilter, hscore⟩ :=
        ih (setSession reg c
            ⟨(if a = qd.answer then s.score + 1 else s.score),
              s.current_question + 1, s.questions⟩)
          ⟨(if a = qd.answer then s.score + 1 else s.score),
            s.current_question + 1, s.questions⟩
          (setSession_same _ _ _)
          (by simp only [List.length_cons] at hlen; simpa using by omega)
          hlt2
      refine ⟨reg2,
        [(if a = qd.answer then Msg.correct c
          else Msg.incorrect c qd.answer),
          Msg.question c qd2.question qd2.options] ++ out2,
        score, ?_, hnone, ?_, ?_⟩
      · simp [run_answers, hstep, hrun]
      · by_cases hans : a = qd.answer <;>
          simp [hans, List.filter_append, hfilter]
      · simp only [List.length_cons]
        have hb : (if a = qd.answer then s.score + 1 else s.score) ≤
            s.score + 1 := by
          split <;> omega
        simp only at hscore
        omega
    · have hrest : rest = [] := by
        have := hlen
        simp only [List.length_cons] at this
        exact List.eq_nil_of_length_eq_zero (by omega)
      subst hrest
      have hstep := handle_answer_finish reg c a s qd hreg hq
        (Nat.le_of_not_lt hlt2)
      refine ⟨delSession reg c,
        [(if a = qd.answer then Msg.correct c
          else Msg.incorrect c qd.answer),
          Msg.summary c (if a = qd.answer then s.score + 1 else s.score)
            s.questions.length] ++ [],
        (if a = qd.answer then s.score + 1 else s.score),
        ?_, delSession_same reg c, ?_, ?_⟩
      · simp [run_answers, hstep]
      · simp only [List.append_nil, List.filter_cons]
        split
        · simp
        · simp
      · simp only [List.length_cons, List.length_nil]
        split <;> omega

/-- C3: after starting a quiz with `N = (q0 :: qs).length` questions
and answering all `N` of them — correctly or not — the session is
gone from the registry and the whole episode's output contains
exactly one summary message, reporting some score `≤ N` out of `N`. -/
theorem quiz_completion (c : Int) (q0 : Question) (qs : List Question)
    (answers : List String) (reg reg1 : Registry) (out1 : List Msg)
    (hlen : answers.length = (q0 :: qs).length)
    (hstart : start_quiz c (.parsed (q0 :: qs)) reg = some (reg1, out1)) :
    ∃ reg2 out2 score,
      run_answers c answers reg1 = some (reg2, out2) ∧
      reg2 c = none ∧
      (out1 ++ out2).filter Msg.isSummary =
        [Msg.summary c score (q0 :: qs).length] ∧
      score ≤ (q0 :: qs).length := by
  rw [start_quiz_parsed] at hstart
  simp only [Option.some.injEq, Prod.mk.injEq] at hstart
  obtain ⟨h1, h2⟩ := hstart
  subst h1
  obtain ⟨reg2, out2, score, hrun, hnone, hfilter, hscore⟩ :=
    run_answers_completes c answers _ ⟨0, 0, q0 :: qs⟩
      (setSession_same _ _ _) (by simpa using hlen) (by simp)
  refine ⟨reg2, out2, score, hrun, hnone, ?_, ?_⟩
  · rw [← h2]
    simpa using hfilter
  · simpa [hlen] using hscore

theorem quiz_completion_witness :
    ∃ reg2 out2 score,
      run_answers 9 ["4"] (setSession emptyRegistry 9 ⟨0, 0, [qA]⟩) =
        some (reg2, out2) ∧
      reg2 9 = none ∧
      ([Msg.question 9 "2+2?" ["3", "4"]] ++ out2).filter Msg.isSummary =
        [Msg.summary 9 score ([qA] : List Question).length] ∧
      score ≤ ([qA] : List Question).length :=
  quiz_completion 9 qA [] ["4"] emptyRegistry
    (setSession emptyRegistry 9 ⟨0, 0, [qA]⟩)
    [Msg.question 9 "2+2?" ["3", "4"]] rfl rfl

/-- The dispatcher's per-batch run always succeeds from a reachable
registry, records cursor assignments `update_id + 1` in batch order
independently of any processing outcome, and leaves the cursor at the
last such value. -/
theorem run_batch_some (now : Int) (load : LoadOutcome) :
    ∀ (us : List Update) (reg : Registry) (off : Option Int),
      Reachable reg →
      ∃ reg' off' out curs,
        run_batch now load us reg off = some (reg', off', out, curs) ∧
        curs = us.map (fun u => u.update_id + 1) ∧
        off' = us.foldl (fun _ u => some (u.update_id + 1)) off ∧
        Reachable reg' := by
  intro us
  induction us with
  | nil =>
    intro reg off hr
    exact ⟨reg, off, [], [], rfl, rfl, rfl, hr⟩
  | cons u rest ih =>
    intro reg off hr
    obtain ⟨reg1, out1, heq1, _⟩ := handle_update_some_inv now load u hr.inv
    have hr1 : Reachable reg1 := Reachable.step hr heq1
    obtain ⟨reg2, off2, out2, curs, hrun, hcurs, hoff, hr2⟩ :=
      ih reg1 (some (u.update_id + 1)) hr1
    refine ⟨reg2, off2, out1 ++ out2, (u.update_id + 1) :: curs, ?_, ?_, ?_, hr2⟩
    · simp [run_batch, heq1, hrun]
    · simp [hcurs]
    · simp [hoff]

/-- C7: over a fetched batch the dispatcher assigns the cursor
`update_id + 1` for each update, in arrival order and before the
update is handled (the assignment trace `curs` is listed by
`run_batch` in assignment order and does not depend on the registry,
the load outcome or the clock); the final cursor is the last
assignment, and when the batch arrives in increasing `update_id`
order the assigned cursor values are strictly increasing. -/
theorem dispatcher_cursor (now : Int) (load : LoadOutcome)
    (us : List Update) (reg : Registry) (off : Option Int)
    (h : Reachable reg)
    (hsorted : us.Chain' (fun u v => u.update_id < v.update_id)) :
    ∃ reg' off' out curs,
      run_batch now load us reg off = some (reg', off', out, curs) ∧
      curs = us.map (fun u => u.update_id + 1) ∧
      off' = us.foldl (fun _ u => some (u.update_id + 1)) off ∧
      curs.Chain' (· < ·) := by
  obtain ⟨reg', off', out, curs, hrun, hcurs, hoff, _⟩ :=
    run_batch_some now load us reg off h
  refine ⟨reg', off', out, curs, hrun, hcurs, hoff, ?_⟩
  rw [hcurs, List.chain'_map]
  exact hsorted.imp fun hab => by omega

theorem dispatcher_cursor_witness :
    ∃ reg' off' out curs,
      run_batch 100 .fileMissing
        [⟨3, none, none⟩, ⟨5, some ⟨1, 100, some "/start"⟩, none⟩]
        emptyRegistry none = some (reg', off', out, curs) ∧
      curs = ([⟨3, none, none⟩, ⟨5, some ⟨1, 100, some "/start"⟩, none⟩] :
          List Update).map (fun u => u.update_id + 1) ∧
      off' = ([⟨3, none, none⟩, ⟨5, some ⟨1, 100, some "/start"⟩, none⟩] :
          List Update).foldl (fun _ u => some (u.update_id + 1)) none ∧
      curs.Chain' (· < ·) :=
  dispatcher_cursor 100 .fileMissing
    [⟨3, none, none⟩, ⟨5, some ⟨1, 100, some "/start"⟩, none⟩]
    emptyRegistry none Reachable.empty
    (by simp [List.chain'_cons, List.chain'_singleton])

end QuizBot
